import Mathlib

/-!
Verification of the pg-aequor core (lease manager, reaper, retry strategy,
client lifecycle state machine) against its natural-language specification.

Strings of the JavaScript source are modelled as `List Char`; the source
restricts all strings of interest (labels, SQLSTATEs, error codes) to ASCII,
where JavaScript's UTF-16 `length` coincides with the character count.
The two cryptographic primitives (HMAC-SHA256 first-8-bytes-as-base64url in
`LeaseManager._sign`, SHA-1 first-8-hex-chars in `_normalizeServiceName`) are
abstracted as function parameters; all properties proved here depend only on
the shape of their output (11 base64url characters, 8 hex characters), which
is stated as an explicit hypothesis where needed.
JavaScript numbers are modelled as `Nat` / `Int` / `Rat` according to how the
source uses them; `Math.random()` outcomes are an explicit `Rat` parameter in
the interval `[0, 1)`.
-/

set_option maxHeartbeats 1000000

def str (s : String) : List Char := s.data

/-! ## Character classes used by the source's regexes (ASCII ranges) -/

/-- Character class `[a-zA-Z0-9:_-]` of `LeaseManager._sanitizeToken`. -/
def isTokenChar (c : Char) : Bool :=
  (65 ≤ c.toNat && c.toNat ≤ 90) || (97 ≤ c.toNat && c.toNat ≤ 122) ||
  (48 ≤ c.toNat && c.toNat ≤ 57) || c.toNat = 58 || c.toNat = 95 || c.toNat = 45

/-- Decimal digit characters, as tested by `parseInt`. -/
def isDigitChar (c : Char) : Bool := 48 ≤ c.toNat && c.toNat ≤ 57

/-- Whitespace skipped by JavaScript's `parseInt`. -/
def isJsWhitespace (c : Char) : Bool :=
  c.toNat = 32 || c.toNat = 9 || c.toNat = 10 || c.toNat = 13 || c.toNat = 11 || c.toNat = 12

/-- base64url alphabet `[A-Za-z0-9_-]` (the encoding used by `_sign`). -/
def isB64UrlChar (c : Char) : Bool :=
  (65 ≤ c.toNat && c.toNat ≤ 90) || (97 ≤ c.toNat && c.toNat ≤ 122) ||
  (48 ≤ c.toNat && c.toNat ≤ 57) || c.toNat = 95 || c.toNat = 45

/-- Lowercase hexadecimal characters (output alphabet of `digest('hex')`). -/
def isHexChar (c : Char) : Bool :=
  (48 ≤ c.toNat && c.toNat ≤ 57) || (97 ≤ c.toNat && c.toNat ≤ 102)

/-- Printable ASCII, the input domain named by the spec's property. -/
def isPrintableAscii (c : Char) : Bool := 32 ≤ c.toNat && c.toNat ≤ 126

/-! ## Decimal rendering of a JS number (template-literal interpolation) -/

/-- One decimal digit as a character. -/
def digitChar : Nat → Char
  | 0 => '0' | 1 => '1' | 2 => '2' | 3 => '3' | 4 => '4'
  | 5 => '5' | 6 => '6' | 7 => '7' | 8 => '8' | _ => '9'

/-- Little-endian digit characters of `n`; `fuel ≥ n` makes it total. -/
def natDigitsRevFuel : Nat → Nat → List Char
  | _, 0 => []
  | 0, _ => []
  | fuel + 1, m + 1 => digitChar ((m + 1) % 10) :: natDigitsRevFuel fuel ((m + 1) / 10)

/-- Decimal string of a natural number, as `${n}` renders it in JS. -/
def natDigits (n : Nat) : List Char :=
  if n = 0 then ['0'] else (natDigitsRevFuel n n).reverse

/-! ## JavaScript `parseInt(s, 10)` (on the inputs the source feeds it) -/

def digitsVal (ds : List Char) : Nat := ds.foldl (fun v c => v * 10 + (c.toNat - 48)) 0

/-- The leading run of decimal digits, or `none` when there is none (NaN). -/
def parseLeadingDigits (s : List Char) : Option Nat :=
  let ds := s.takeWhile isDigitChar
  if ds = [] then none else some (digitsVal ds)

/-- `parseInt(s, 10)` followed by the source's `Number.isFinite` rejection of NaN. -/
def jsParseInt (s : List Char) : Option Int :=
  match s.dropWhile isJsWhitespace with
  | [] => none
  | c :: rest =>
    if c = '-' then (parseLeadingDigits rest).map (fun v => -(v : Int))
    else if c = '+' then (parseLeadingDigits rest).map (fun v => (v : Int))
    else (parseLeadingDigits (c :: rest)).map (fun v => (v : Int))

/-! ## Splitting on the `;` delimiter (the anchored label regex) -/

/-- `String.prototype.split(';')`: the parts between semicolons, in order. -/
def splitOnSemi : List Char → List (List Char)
  | [] => [[]]
  | c :: rest =>
    if c = ';' then [] :: splitOnSemi rest
    else match splitOnSemi rest with
      | [] => [[c]]
      | p :: ps => (c :: p) :: ps

/-- `hay.includes(needle)` for JS strings. -/
def containsSub (hay needle : List Char) : Bool :=
  match hay with
  | [] => needle = []
  | _ :: t => needle.isPrefixOf hay || containsSub t needle

/-! ## LeaseManager (src/lib/lease.js) -/

/-- `LeaseManager._sanitizeToken`: replace every character outside
`[a-zA-Z0-9:_-]` with `_`. -/
def sanitizeToken (s : List Char) : List Char :=
  s.map (fun c => if isTokenChar c then c else '_')

/-- `LeaseManager._normalizeServiceName`.  `sha1hex8` abstracts
`sha1(original).digest('hex').slice(0, 8)`. -/
def normalizeServiceName (sha1hex8 : List Char → List Char)
    (serviceName instanceId : List Char) : List Char :=
  let original := if serviceName = [] then str "sls_pg" else serviceName
  let raw := sanitizeToken original
  let inst := sanitizeToken (if instanceId = [] then str "inst" else instanceId)
  let overhead := 24 + inst.length + 11
  let maxSvcLen := max 1 (63 - overhead)
  let needsHash := raw ≠ original
  if ¬needsHash ∧ raw.length ≤ maxSvcLen then raw
  else
    let hash := sha1hex8 original
    if maxSvcLen ≤ hash.length then hash.take maxSvcLen
    else
      let prefixLen := maxSvcLen - (hash.length + 1)
      raw.take prefixLen ++ ['-'] ++ hash

/-- The state of a constructed `LeaseManager`.  `sign` abstracts `_sign`
(HMAC-SHA256 under the instance's secret, first 8 bytes, base64url). -/
structure LeaseManager where
  serviceName : List Char
  instanceId : List Char
  sign : List Char → List Char

/-- The `LeaseManager` constructor: secret validation, instance-id
sanitization, service-name normalization. -/
def mkLeaseManager (hmacSig sha1hex8 : List Char → List Char)
    (serviceName instanceId secret : List Char) : Except (List Char) LeaseManager :=
  let inst := sanitizeToken (if instanceId = [] then str "inst" else instanceId)
  if secret = [] then .error (str "LeaseManager requires a non-empty secret")
  else if secret.length < 16 then .error (str "LeaseManager secret is too short")
  else .ok
    { serviceName := normalizeServiceName sha1hex8
        (if serviceName = [] then str "sls_pg" else serviceName) inst
      instanceId := inst
      sign := hmacSig }

/-- `LeaseManager.generateAppName` (mint): build `s=..;i=..;e=..;g=..`, and
fail loudly if the 63-byte invariant would be violated. -/
def generateAppName (lm : LeaseManager) (expirationTs : Nat) : Except (List Char) (List Char) :=
  let base := str "s=" ++ lm.serviceName ++ str ";i=" ++ lm.instanceId ++
    str ";e=" ++ natDigits expirationTs
  let sig := lm.sign base
  let result := base ++ str ";g=" ++ sig
  if result.length > 63 then .error (str "BUG: application_name too long")
  else .ok result

/-- Parsed lease information returned by `parseAndVerify`. -/
structure LeaseInfo where
  svc : List Char
  inst : List Char
  exp : Int
  isExpired : Bool
deriving DecidableEq, Repr

/-- `LeaseManager.parseAndVerify`: anchored regex
`s=([^;]+);i=([^;]+);e=([^;]+);g=([^;]+)` (here: exactly four `;`-separated
nonempty fields with the right key prefixes), signature recomputation and
comparison, finite-integer expiry, `isExpired = now > exp`. -/
def parseAndVerify (lm : LeaseManager) (now : Int) (appName : List Char) : Option LeaseInfo :=
  if appName = [] then none
  else match splitOnSemi appName with
  | [p1, p2, p3, p4] =>
    if p1.take 2 = str "s=" ∧ p1.drop 2 ≠ [] ∧ p2.take 2 = str "i=" ∧ p2.drop 2 ≠ [] ∧
       p3.take 2 = str "e=" ∧ p3.drop 2 ≠ [] ∧ p4.take 2 = str "g=" ∧ p4.drop 2 ≠ [] then
      let sv := p1.drop 2
      let i := p2.drop 2
      let e := p3.drop 2
      let g := p4.drop 2
      let base := str "s=" ++ sv ++ str ";i=" ++ i ++ str ";e=" ++ e
      let expected := lm.sign base
      if g = expected then
        match jsParseInt e with
        | some exp => some ⟨sv, i, exp, decide (now > exp)⟩
        | none => none
      else none
    else none
  | _ => none

/-- Output-shape hypothesis on the abstracted `_sign`: 8 HMAC bytes encoded
base64url without padding are exactly 11 characters of the base64url
alphabet. -/
def SignOk (sign : List Char → List Char) : Prop :=
  ∀ t, (sign t).length = 11 ∧ ∀ c ∈ sign t, isB64UrlChar c = true

/-- Output-shape hypothesis on the abstracted SHA-1 prefix: 8 lowercase hex
characters. -/
def HashOk (h : List Char → List Char) : Prop :=
  ∀ t, (h t).length = 8 ∧ ∀ c ∈ h t, isHexChar c = true

/-! ## RetryStrategy (src error classification and decorrelated jitter) -/

/-- The error shape the source inspects: `message`, transport `code`, and the
driver's `sqlstate` field. -/
structure PgError where
  message : List Char := []
  code : Option (List Char) := none
  sqlstate : Option (List Char) := none
  errno : Option Int := none
  syscall : Option (List Char) := none
  address : Option (List Char) := none
  port : Option Int := none
  severity : Option (List Char) := none
  routine : Option (List Char) := none
deriving DecidableEq, Repr

/-- JS `a || b` on possibly-missing strings: the empty string is falsy. -/
def jsOrStr (a b : Option (List Char)) : Option (List Char) :=
  match a with
  | some s => if s = [] then b else some s
  | none => b

/-- The nine transport codes the source treats as retryable. -/
def transportCodes : List (List Char) :=
  [str "ECONNRESET", str "EPIPE", str "ETIMEDOUT", str "ECONNREFUSED",
   str "ENETUNREACH", str "EHOSTUNREACH", str "EAI_AGAIN",
   str "ECONNABORTED", str "EADDRINUSE"]

/-- `RetryStrategy.isRetryable`: the sequence of early-`return true` tests of
the source, written as the equivalent boolean disjunction. -/
def isRetryable (err : PgError) : Bool :=
  let code := err.code
  let msg := err.message
  let sqlstate := jsOrStr err.code err.sqlstate
  (transportCodes.any (fun t => code = some t)) ||
  (match sqlstate with
   | some s => decide (s.length = 5) && decide (s.take 2 = str "08")
   | none => false) ||
  decide (sqlstate = some (str "57P01")) || decide (sqlstate = some (str "57P02")) ||
  decide (sqlstate = some (str "57P03")) ||
  decide (sqlstate = some (str "53300")) ||
  containsSub msg (str "Connection terminated unexpectedly") ||
  containsSub msg (str "sorry, too many clients already")

/-- JS `a || b` on numbers: `0` is falsy.  (`previousDelay || baseMs`.) -/
def jsOrNum (a b : Rat) : Rat := if a = 0 then b else a

/-- `RetryStrategy.getBackoff`: decorrelated jitter
`min(cap, floor(random() * (prev*3 - base + 1)) + base)`, with the random
draw `r ∈ [0,1)` made explicit. -/
def getBackoff (baseMs capMs previousDelay r : Rat) : Rat :=
  let prev := jsOrNum previousDelay baseMs
  let rr : Rat := ((Int.floor (r * (prev * 3 - baseMs + 1)) : Int) : Rat) + baseMs
  min capMs rr

/-! ## Reaper (src `Reaper.reap`) -/

/-- One row of the `pg_stat_activity` scan. -/
structure ScanRow where
  pid : Int
  application_name : List Char
  idle_time : Rat
deriving DecidableEq, Repr

/-- A zombie candidate as accumulated by `reap`. -/
structure Cand where
  pid : Int
  idle_time : Rat
  exp : Int
deriving DecidableEq, Repr

/-- Reaper configuration (the `strategy` object). -/
structure Strategy where
  minConnIdleTimeSec : Rat
  maxIdleConnectionsToKill : Nat
  reaperThrow : Bool
deriving Repr

/-- Results of the four queries `reap` may issue, as supplied by the
database: lock acquisition, scan, terminate, unlock.  `.error` is a query
that throws.  The unlock result is listed for completeness; `reap` swallows
it, so no output depends on it. -/
structure ReapEnv where
  lockRes : Except (List Char) Bool
  scanRes : Except (List Char) (List ScanRow)
  termRes : Except (List Char) Unit
  unlockRes : Except (List Char) Unit

/-- The object `reap` returns. -/
structure ReapResult where
  locked : Bool
  killed : Nat
  error : Option (List Char) := none
deriving DecidableEq, Repr

instance {ε α : Type} [DecidableEq ε] [DecidableEq α] : DecidableEq (Except ε α) := fun a b =>
  match a, b with
  | .error e, .error e' => if h : e = e' then .isTrue (by rw [h]) else .isFalse (by simp [h])
  | .ok v, .ok v' => if h : v = v' then .isTrue (by rw [h]) else .isFalse (by simp [h])
  | .error _, .ok _ => .isFalse (by simp)
  | .ok _, .error _ => .isFalse (by simp)

/-- Observable behaviour of one `reap` call: returned value (or thrown
error), whether the scan ran, each `pg_terminate_backend` pid array, and
whether `pg_advisory_unlock` was issued in the epilogue. -/
structure ReapOutcome where
  result : Except (List Char) ReapResult
  scanIssued : Bool
  killCalls : List (List Int)
  unlockIssued : Bool
deriving DecidableEq, Repr

/-- The comparator `(a.exp - b.exp) || (b.idle_time - a.idle_time) ||
(a.pid - b.pid)` as a boolean "sorts-no-later-than" relation. -/
def candLE (a b : Cand) : Bool :=
  decide (a.exp < b.exp) ||
  (decide (a.exp = b.exp) && decide (b.idle_time < a.idle_time)) ||
  (decide (a.exp = b.exp) && decide (a.idle_time = b.idle_time) && decide (a.pid ≤ b.pid))

/-- Stable insertion w.r.t. `candLE`. -/
def insertCand (a : Cand) : List Cand → List Cand
  | [] => [a]
  | b :: rest => if candLE a b then a :: b :: rest else b :: insertCand a rest

/-- Stable sort w.r.t. `candLE` (`candidates.sort(comparator)`). -/
def sortCands : List Cand → List Cand
  | [] => []
  | a :: rest => insertCand a (sortCands rest)

/-- The per-row classification in `reap`'s scan loop: skip short-idle rows,
skip rows whose label fails `parseAndVerify`, keep expired leases. -/
def leaseCandidate (lm : LeaseManager) (strat : Strategy) (now : Int)
    (row : ScanRow) : Option Cand :=
  if row.idle_time < strat.minConnIdleTimeSec then none
  else match parseAndVerify lm now row.application_name with
    | none => none
    | some lease => if lease.isExpired then some ⟨row.pid, row.idle_time, lease.exp⟩ else none

/-- The candidate list accumulated over the scan rows. -/
def reapCandidates (lm : LeaseManager) (strat : Strategy) (now : Int)
    (rows : List ScanRow) : List Cand :=
  rows.filterMap (leaseCandidate lm strat now)

/-- The `catch` clause of `reap`: rethrow when `reaperErrorMode == 'throw'`,
otherwise return `{locked: false, killed: 0, error}`. -/
def reapCatch (throwMode : Bool) (e : List Char) : Except (List Char) ReapResult :=
  if throwMode then .error e else .ok { locked := false, killed := 0, error := some e }

/-- `Reaper.reap`: advisory lock, scan, classify, sort, cap, terminate, with
the `catch`/`finally` control flow made explicit. -/
def reap (lm : LeaseManager) (strat : Strategy) (now : Int) (env : ReapEnv) : ReapOutcome :=
  match env.lockRes with
  | .error e =>
    { result := reapCatch strat.reaperThrow e, scanIssued := false,
      killCalls := [], unlockIssued := false }
  | .ok false =>
    { result := .ok { locked := false, killed := 0 }, scanIssued := false,
      killCalls := [], unlockIssued := false }
  | .ok true =>
    match env.scanRes with
    | .error e =>
      { result := reapCatch strat.reaperThrow e, scanIssued := true,
        killCalls := [], unlockIssued := true }
    | .ok rows =>
      let candidates := reapCandidates lm strat now rows
      if candidates.length > 0 then
        let sorted := sortCands candidates
        let limit := max 1 strat.maxIdleConnectionsToKill
        let pids := (sorted.take limit).map (fun c => c.pid)
        match env.termRes with
        | .error e =>
          { result := reapCatch strat.reaperThrow e, scanIssued := true,
            killCalls := [pids], unlockIssued := true }
        | .ok _ =>
          { result := .ok { locked := true, killed := pids.length }, scanIssued := true,
            killCalls := [pids], unlockIssued := true }
      else
        { result := .ok { locked := true, killed := 0 }, scanIssued := true,
          killCalls := [], unlockIssued := true }

/-! ## Client lifecycle state (src `AequorClient`) -/

/-- The client fields the lifecycle claims are about.  Underlying sessions
are identified by a `Nat`. -/
structure ClientState where
  client : Option Nat
  isDead : Bool
  generation : Nat
  leaseExp : Int
deriving DecidableEq, Repr

/-- The `meta` object `_markDeadAndDispose` extracts for `onClientDead`. -/
structure DeadMeta where
  code : Option (List Char)
  sqlstate : Option (List Char)
  errno : Option Int
  syscall : Option (List Char)
  address : Option (List Char)
  port : Option Int
  severity : Option (List Char)
  routine : Option (List Char)
deriving DecidableEq, Repr

/-- The field extraction in `_markDeadAndDispose`. -/
def extractMeta (e : PgError) : DeadMeta :=
  ⟨e.code, e.sqlstate, e.errno, e.syscall, e.address, e.port, e.severity, e.routine⟩

/-- Hook invocations observable in the modelled paths. -/
inductive Hook where
  | onClientDead (source : List Char) (err : PgError) (meta : DeadMeta)
  | onHeartbeat (gen : Nat)
  | onHeartbeatFail (gen : Nat) (err : List Char)
deriving DecidableEq, Repr

/-- Outcome of the fatal-event handler. -/
structure MarkDeadOut where
  state : ClientState
  hooks : List Hook
  closedSessions : List Nat
deriving DecidableEq, Repr

/-- `AequorClient._markDeadAndDispose`: set dead, bump generation, detach the
session if it is still current, emit `onClientDead` when an error object is
present, best-effort close without awaiting. -/
def markDeadAndDispose (sess : Nat) (err : Option PgError) (source : List Char)
    (s : ClientState) : MarkDeadOut :=
  let s1 : ClientState :=
    { s with isDead := true, generation := s.generation + 1,
             client := if s.client = some sess then none else s.client }
  { state := s1
    hooks := match err with
      | some e => [.onClientDead source e (extractMeta e)]
      | none => []
    closedSessions := [sess] }

/-- `AequorClient._disposeClient`: optionally bump the generation, detach the
current session, and gracefully end it (errors swallowed).  Returns the new
state and the sessions that were ended. -/
def disposeClient (bumpGeneration : Bool) (s : ClientState) : ClientState × List Nat :=
  ({ s with generation := if bumpGeneration then s.generation + 1 else s.generation,
            client := none },
   match s.client with
   | some c => [c]
   | none => [])

/-- `AequorClient.clean` (and its alias `end`): `_disposeClient('clean')`. -/
def cleanClient (s : ClientState) : ClientState × List Nat := disposeClient true s

/-- Outcome of the post-handshake half of `_connect`. -/
structure ConnectFinishOut where
  state : ClientState
  installed : Bool
  endedSessions : List Nat
deriving DecidableEq, Repr

/-- The generation guard at the end of `_connect`: if the client's generation
no longer equals the one captured at `connect()` entry, end the
freshly-connected session and install nothing; otherwise install it and
clear `dead`. -/
def connectAfterHandshake (gen : Nat) (sess : Nat) (s : ClientState) : ConnectFinishOut :=
  if s.generation ≠ gen then
    { state := s, installed := false, endedSessions := [sess] }
  else
    { state := { s with client := some sess, isDead := false },
      installed := true, endedSessions := [] }

/-- `connect()` entry: return immediately when a live session exists,
otherwise bump the generation and capture it for the new attempt. -/
def connectBegin (s : ClientState) : Option (ClientState × Nat) :=
  if s.client.isSome && !s.isDead then none
  else some ({ s with generation := s.generation + 1 }, s.generation + 1)

/-- The pre-handshake half of `_connect`: dispose any prior session without
bumping the generation, then set the local lease expiry for the freshly
minted label (0 when leasing is disabled). -/
def connectPre (leasing : Bool) (now ttl : Int) (s : ClientState) : ClientState × List Nat :=
  let (s1, ended) := disposeClient false s
  ({ s1 with leaseExp := if leasing then now + ttl else 0 }, ended)

/-- One `connect()` call on which the handshake succeeds and no concurrent
event runs between the generation capture and the guard. -/
def connectSuccessNoInterference (leasing : Bool) (now ttl : Int) (sess : Nat)
    (s : ClientState) : ClientState :=
  match connectBegin s with
  | none => s
  | some (s1, gen) => (connectAfterHandshake gen sess (connectPre leasing now ttl s1).1).state

/-- The branch condition at the top of `query()`'s loop body:
`!this._client || this._isDead` routes to `connect()`. -/
def queryNeedsConnect (s : ClientState) : Bool := s.client.isNone || s.isDead

/-- One iteration of `query()`'s loop in which every awaited step succeeds:
reconnect when there is no live session, otherwise run the heartbeat check
(abstracted as `hb`), then execute the query on the underlying session. -/
def queryAttempt (hb : ClientState → ClientState) (leasing : Bool) (now ttl : Int)
    (sess : Nat) (execRes : Except (List Char) Unit) (s : ClientState) :
    ClientState × Except (List Char) Unit :=
  if queryNeedsConnect s then
    (connectSuccessNoInterference leasing now ttl sess s, execRes)
  else
    (hb s, execRes)

/-! ## Heartbeat (src `AequorClient._performHeartbeat`) -/

/-- `heartbeatErrorMode`. -/
inductive HBMode where
  | reconnect
  | swallow
  | throwMode
deriving DecidableEq, Repr

/-- Outcome of one `_performHeartbeat` run. -/
structure HeartbeatOut where
  state : ClientState
  hooks : List Hook
  queryIssued : Bool
  thrown : Option (List Char)
  endedSessions : List Nat
deriving DecidableEq, Repr

/-- The `catch` clause of `_performHeartbeat`: emit `onHeartbeatFail`, then
rethrow, reconnect (mark dead and dispose, bumping the generation), or
swallow according to the configured mode. -/
def hbCatch (gen : Nat) (mode : HBMode) (sDone : ClientState) (e : List Char) : HeartbeatOut :=
  match mode with
  | .throwMode => ⟨sDone, [.onHeartbeatFail gen e], true, some e, []⟩
  | .reconnect =>
    let (s1, ended) := disposeClient true { sDone with isDead := true }
    ⟨s1, [.onHeartbeatFail gen e], true, none, ended⟩
  | .swallow => ⟨sDone, [.onHeartbeatFail gen e], true, none, []⟩

/-- `AequorClient._performHeartbeat`.  `gen` and `sess` are the generation
and session captured when the attempt was created; `sEntry` is the client
state when the attempt starts running (the entry guards read it); `sDone` is
the state when the awaited `set_config` race settles — arbitrary, since other
events may run during the await.  `qres` is the race's outcome: `.ok b` a
query result whose truthiness is `b`, `.error` a query failure or the
timeout.  The minted label only flows into the SQL parameter, so its value
is not tracked here. -/
def performHeartbeat (gen : Nat) (sess : Nat) (hasLease : Bool) (now ttl : Int)
    (sEntry sDone : ClientState) (qres : Except (List Char) Bool) (mode : HBMode) :
    HeartbeatOut :=
  if ¬hasLease then ⟨sEntry, [], false, none, []⟩
  else if sEntry.client ≠ some sess then ⟨sEntry, [], false, none, []⟩
  else if sEntry.generation ≠ gen then ⟨sEntry, [], false, none, []⟩
  else
    let newExp := now + ttl
    match qres with
    | .ok true =>
      if sDone.generation = gen ∧ sDone.client = some sess then
        ⟨{ sDone with leaseExp := newExp }, [.onHeartbeat gen], true, none, []⟩
      else ⟨sDone, [], true, none, []⟩
    | .ok false => hbCatch gen mode sDone (str "Heartbeat failed: no result")
    | .error e => hbCatch gen mode sDone e

/-! ## Helper lemmas: character classes -/

theorem tokenChar_ne_semi {c : Char} (h : isTokenChar c = true) : c ≠ ';' := by
  intro he
  rw [he] at h
  exact absurd h (by decide)

theorem hexChar_isTokenChar {c : Char} (h : isHexChar c = true) : isTokenChar c = true := by
  simp only [isHexChar, isTokenChar, Bool.or_eq_true, Bool.and_eq_true,
    decide_eq_true_eq] at h ⊢
  omega

theorem b64UrlChar_ne_semi {c : Char} (h : isB64UrlChar c = true) : c ≠ ';' := by
  intro he
  rw [he] at h
  exact absurd h (by decide)

theorem digitChar_props (d : Nat) (h : d < 10) :
    isDigitChar (digitChar d) = true ∧ digitChar d ≠ ';' := by
  interval_cases d <;> exact ⟨by decide, by decide⟩

theorem digitChar_aux {c : Char} (h : isDigitChar c = true) :
    c ≠ ';' ∧ isJsWhitespace c = false ∧ c ≠ '-' ∧ c ≠ '+' := by
  simp only [isDigitChar, Bool.and_eq_true, decide_eq_true_eq] at h
  refine ⟨?_, ?_, ?_, ?_⟩
  · intro he; rw [he] at h; revert h; decide
  · rw [Bool.eq_false_iff]
    intro hw
    simp only [isJsWhitespace, Bool.or_eq_true, decide_eq_true_eq] at hw
    omega
  · intro he; rw [he] at h; revert h; decide
  · intro he; rw [he] at h; revert h; decide

/-! ## Helper lemmas: decimal digits of a number -/

theorem natDigitsRevFuel_digits :
    ∀ f n, n ≤ f → ∀ c ∈ natDigitsRevFuel f n, isDigitChar c = true := by
  intro f
  induction f with
  | zero =>
    intro n hn c hc
    interval_cases n
    simp [natDigitsRevFuel] at hc
  | succ f ih =>
    intro n hn c hc
    cases n with
    | zero => simp [natDigitsRevFuel] at hc
    | succ m =>
      simp only [natDigitsRevFuel, List.mem_cons] at hc
      rcases hc with h | h
      · rw [h]
        exact (digitChar_props _ (Nat.mod_lt _ (by norm_num))).1
      · have hlt : (m + 1) / 10 < m + 1 := Nat.div_lt_self (Nat.succ_pos m) (by norm_num)
        exact ih ((m + 1) / 10) (by omega) c h

theorem natDigitsRevFuel_length :
    ∀ f n k, n ≤ f → n < 10 ^ k → (natDigitsRevFuel f n).length ≤ k := by
  intro f
  induction f with
  | zero =>
    intro n k hn _
    interval_cases n
    simp [natDigitsRevFuel]
  | succ f ih =>
    intro n k hn hk
    cases n with
    | zero => simp [natDigitsRevFuel]
    | succ m =>
      cases k with
      | zero => simp at hk
      | succ j =>
        simp only [natDigitsRevFuel, List.length_cons]
        have hlt : (m + 1) / 10 < m + 1 := Nat.div_lt_self (Nat.succ_pos m) (by norm_num)
        have hdiv : (m + 1) / 10 < 10 ^ j := by
          rw [Nat.div_lt_iff_lt_mul (by norm_num : 0 < 10)]
          calc m + 1 < 10 ^ (j + 1) := hk
          _ = 10 ^ j * 10 := by rw [pow_succ]
        have := ih ((m + 1) / 10) j (by omega) hdiv
        omega

theorem natDigits_digits {n : Nat} : ∀ c ∈ natDigits n, isDigitChar c = true := by
  intro c hc
  unfold natDigits at hc
  split at hc
  · simp only [List.mem_singleton] at hc
    rw [hc]; decide
  · rw [List.mem_reverse] at hc
    exact natDigitsRevFuel_digits n n le_rfl c hc

theorem natDigits_ne_nil {n : Nat} : natDigits n ≠ [] := by
  unfold natDigits
  split
  · simp
  · rename_i h
    cases n with
    | zero => exact absurd rfl h
    | succ m => simp [natDigitsRevFuel]

theorem natDigits_length_le {n k : Nat} (hk : 1 ≤ k) (h : n < 10 ^ k) :
    (natDigits n).length ≤ k := by
  unfold natDigits
  split
  · simpa using hk
  · rw [List.length_reverse]
    exact natDigitsRevFuel_length n n k le_rfl h

/-! ## Helper lemmas: jsParseInt on digit strings -/

theorem jsParseInt_all_digits {ds : List Char} (hne : ds ≠ [])
    (hd : ∀ c ∈ ds, isDigitChar c = true) : ∃ v : Int, jsParseInt ds = some v := by
  cases ds with
  | nil => exact absurd rfl hne
  | cons c t =>
    have hc := hd c (List.mem_cons_self c t)
    have haux := digitChar_aux hc
    have hdw : (c :: t).dropWhile isJsWhitespace = c :: t :=
      List.dropWhile_cons_of_neg (by rw [haux.2.1]; simp)
    simp [jsParseInt, hdw, haux.2.2.1, haux.2.2.2, parseLeadingDigits,
      List.takeWhile_cons_of_pos hc]

/-! ## Helper lemmas: splitting on semicolons -/

theorem splitOnSemi_no_semi {l : List Char} (h : ∀ c ∈ l, c ≠ ';') :
    splitOnSemi l = [l] := by
  induction l with
  | nil => rfl
  | cons c t ih =>
    have hc : c ≠ ';' := h c (List.mem_cons_self c t)
    have ht := ih (fun x hx => h x (List.mem_cons_of_mem c hx))
    simp [splitOnSemi, hc, ht]

theorem splitOnSemi_append {a : List Char} (b : List Char) (h : ∀ c ∈ a, c ≠ ';') :
    splitOnSemi (a ++ ';' :: b) = a :: splitOnSemi b := by
  induction a with
  | nil => simp [splitOnSemi]
  | cons c t ih =>
    have hc : c ≠ ';' := h c (List.mem_cons_self c t)
    have ht := ih (fun x hx => h x (List.mem_cons_of_mem c hx))
    simp [splitOnSemi, hc, ht]

/-! ## Helper lemmas: sanitization and service-name normalization -/

theorem sanitizeToken_length (s : List Char) : (sanitizeToken s).length = s.length :=
  List.length_map _ _

theorem sanitizeToken_chars (s : List Char) : ∀ c ∈ sanitizeToken s, isTokenChar c = true := by
  intro c hc
  rcases List.mem_map.mp hc with ⟨a, _, rfl⟩
  by_cases h : isTokenChar a
  · simp [h]
  · rw [if_neg h]
    decide

theorem sanitizeToken_ne_nil {s : List Char} (h : s ≠ []) : sanitizeToken s ≠ [] := by
  simpa [sanitizeToken]

theorem sanitizeToken_idem (s : List Char) :
    sanitizeToken (sanitizeToken s) = sanitizeToken s := by
  induction s with
  | nil => rfl
  | cons a t ih =>
    simp only [sanitizeToken, List.map_cons] at ih ⊢
    rw [ih]
    by_cases h : isTokenChar a
    · simp [h]
    · rw [if_neg h, if_pos (by decide : isTokenChar '_' = true)]

theorem normalizeServiceName_spec (sha : List Char → List Char) (hsha : HashOk sha)
    (svcRaw inst : List Char) (hine : inst ≠ []) (hins : sanitizeToken inst = inst) :
    (normalizeServiceName sha svcRaw inst).length ≤ max 1 (63 - (24 + inst.length + 11)) ∧
    normalizeServiceName sha svcRaw inst ≠ [] ∧
    ∀ c ∈ normalizeServiceName sha svcRaw inst, isTokenChar c = true := by
  have hinner : sanitizeToken (if inst = [] then str "inst" else inst) = inst := by
    rw [if_neg hine, hins]
  have hone : (if svcRaw = [] then str "sls_pg" else svcRaw) ≠ [] := by
    split
    · decide
    · assumption
  obtain ⟨hhlen, hhch⟩ := hsha (if svcRaw = [] then str "sls_pg" else svcRaw)
  simp only [normalizeServiceName, hinner]
  set original := if svcRaw = [] then str "sls_pg" else svcRaw with horig
  set raw := sanitizeToken original with hraw
  have hrawne : raw ≠ [] := sanitizeToken_ne_nil hone
  have hrawch : ∀ c ∈ raw, isTokenChar c = true := sanitizeToken_chars original
  set maxSvcLen := max 1 (63 - (24 + inst.length + 11)) with hmax
  have hmax1 : 1 ≤ maxSvcLen := le_max_left _ _
  split_ifs with h1 h2
  · exact ⟨h1.2, hrawne, hrawch⟩
  · refine ⟨?_, ?_, ?_⟩
    · rw [List.length_take]
      exact min_le_left _ _
    · have hlen : ((sha original).take maxSvcLen).length = maxSvcLen := by
        rw [List.length_take]
        omega
      intro hnil
      rw [hnil] at hlen
      simp only [List.length_nil] at hlen
      omega
    · intro c hc
      exact hexChar_isTokenChar (hhch c (List.take_subset _ _ hc))
  · refine ⟨?_, ?_, ?_⟩
    · have h9 : 9 ≤ maxSvcLen := by omega
      have htl : (raw.take (maxSvcLen - ((sha original).length + 1))).length ≤
          maxSvcLen - ((sha original).length + 1) := by
        rw [List.length_take]
        exact min_le_left _ _
      simp only [List.length_append, List.length_cons, List.length_nil]
      omega
    · simp
    · intro c hc
      rcases List.mem_append.mp hc with hc | hc
      · rcases List.mem_append.mp hc with hc | hc
        · exact hrawch c (List.take_subset _ _ hc)
        · simp only [List.mem_singleton] at hc
          rw [hc]
          decide
      · exact hexChar_isTokenChar (hhch c hc)

/-! ## Helper lemmas: a freshly minted label parses and verifies -/

theorem take_two_cons (a b : Char) (l : List Char) : (a :: b :: l).take 2 = [a, b] := rfl

theorem drop_two_cons (a b : Char) (l : List Char) : (a :: b :: l).drop 2 = l := rfl

theorem parseAndVerify_mintShape (lm : LeaseManager) (now : Int) (ds : List Char)
    (hsv_ne : lm.serviceName ≠ []) (hsv : ∀ c ∈ lm.serviceName, c ≠ ';')
    (hin_ne : lm.instanceId ≠ []) (hin : ∀ c ∈ lm.instanceId, c ≠ ';')
    (hds_ne : ds ≠ []) (hds : ∀ c ∈ ds, isDigitChar c = true)
    (hsg_ne : lm.sign (str "s=" ++ lm.serviceName ++ str ";i=" ++ lm.instanceId ++
        str ";e=" ++ ds) ≠ [])
    (hsg : ∀ c ∈ lm.sign (str "s=" ++ lm.serviceName ++ str ";i=" ++ lm.instanceId ++
        str ";e=" ++ ds), c ≠ ';') :
    ∃ v : Int, parseAndVerify lm now
      (str "s=" ++ lm.serviceName ++ str ";i=" ++ lm.instanceId ++ str ";e=" ++ ds ++
        str ";g=" ++ lm.sign (str "s=" ++ lm.serviceName ++ str ";i=" ++ lm.instanceId ++
          str ";e=" ++ ds)) =
      some ⟨lm.serviceName, lm.instanceId, v, decide (now > v)⟩ := by
  set sv := lm.serviceName with hsvdef
  set ii := lm.instanceId with hiidef
  set sg := lm.sign (str "s=" ++ sv ++ str ";i=" ++ ii ++ str ";e=" ++ ds) with hsgdef
  have e1 : str "s=" ++ sv ++ str ";i=" ++ ii ++ str ";e=" ++ ds ++ str ";g=" ++ sg =
      ('s' :: '=' :: sv) ++ ';' :: (('i' :: '=' :: ii) ++ ';' ::
        (('e' :: '=' :: ds) ++ ';' :: ('g' :: '=' :: sg))) := by
    simp [str]
  have h1 : ∀ c ∈ 's' :: '=' :: sv, c ≠ ';' := by
    intro c hc
    simp only [List.mem_cons] at hc
    rcases hc with rfl | rfl | hc
    · decide
    · decide
    · exact hsv c hc
  have h2 : ∀ c ∈ 'i' :: '=' :: ii, c ≠ ';' := by
    intro c hc
    simp only [List.mem_cons] at hc
    rcases hc with rfl | rfl | hc
    · decide
    · decide
    · exact hin c hc
  have h3 : ∀ c ∈ 'e' :: '=' :: ds, c ≠ ';' := by
    intro c hc
    simp only [List.mem_cons] at hc
    rcases hc with rfl | rfl | hc
    · decide
    · decide
    · exact (digitChar_aux (hds c hc)).1
  have h4 : ∀ c ∈ 'g' :: '=' :: sg, c ≠ ';' := by
    intro c hc
    simp only [List.mem_cons] at hc
    rcases hc with rfl | rfl | hc
    · decide
    · decide
    · exact hsg c hc
  have hsplit : splitOnSemi (str "s=" ++ sv ++ str ";i=" ++ ii ++ str ";e=" ++ ds ++
      str ";g=" ++ sg) =
      [('s' :: '=' :: sv), ('i' :: '=' :: ii), ('e' :: '=' :: ds), ('g' :: '=' :: sg)] := by
    rw [e1, splitOnSemi_append _ h1, splitOnSemi_append _ h2, splitOnSemi_append _ h3,
      splitOnSemi_no_semi h4]
  have hne : str "s=" ++ sv ++ str ";i=" ++ ii ++ str ";e=" ++ ds ++ str ";g=" ++ sg ≠ [] := by
    rw [e1]
    simp
  have hbase : str "s=" ++ sv ++ str ";i=" ++ ii ++ str ";e=" ++ ds =
      ('s' :: '=' :: (sv ++ ';' :: 'i' :: '=' :: (ii ++ ';' :: 'e' :: '=' :: ds))) := by
    simp [str]
  obtain ⟨v, hv⟩ := jsParseInt_all_digits hds_ne hds
  refine ⟨v, ?_⟩
  rw [parseAndVerify, if_neg hne, hsplit]
  simp only [take_two_cons, drop_two_cons]
  rw [if_pos ⟨by rw [str], hsv_ne, by rw [str], hin_ne, by rw [str], hds_ne, by rw [str], hsg_ne⟩]
  rw [if_pos]
  · rw [hv]
  · trivial

/-! ## Helper lemmas: the reaper's comparator and sort -/

theorem candLE_total (a b : Cand) : candLE a b = true ∨ candLE b a = true := by
  simp only [candLE, Bool.or_eq_true, Bool.and_eq_true, decide_eq_true_eq]
  rcases lt_trichotomy a.exp b.exp with h | h | h
  · tauto
  · rcases lt_trichotomy a.idle_time b.idle_time with h2 | h2 | h2
    · right
      exact Or.inl (Or.inr ⟨h.symm, h2⟩)
    · rcases le_total a.pid b.pid with h3 | h3
      · left
        exact Or.inr ⟨⟨h, h2⟩, h3⟩
      · right
        exact Or.inr ⟨⟨h.symm, h2.symm⟩, h3⟩
    · left
      exact Or.inl (Or.inr ⟨h, h2⟩)
  · tauto

theorem candLE_trans {a b c : Cand} (hab : candLE a b = true) (hbc : candLE b c = true) :
    candLE a c = true := by
  simp only [candLE, Bool.or_eq_true, Bool.and_eq_true, decide_eq_true_eq] at hab hbc ⊢
  rcases hab with (h1 | ⟨h1, h2⟩) | ⟨⟨h1, h2⟩, h3⟩ <;>
    rcases hbc with (g1 | ⟨g1, g2⟩) | ⟨⟨g1, g2⟩, g3⟩
  · exact Or.inl (Or.inl (lt_trans h1 g1))
  · exact Or.inl (Or.inl (lt_of_lt_of_eq h1 g1))
  · exact Or.inl (Or.inl (lt_of_lt_of_eq h1 g1))
  · exact Or.inl (Or.inl (lt_of_eq_of_lt h1 g1))
  · exact Or.inl (Or.inr ⟨h1.trans g1, lt_trans g2 h2⟩)
  · exact Or.inl (Or.inr ⟨h1.trans g1, by rw [← g2]; exact h2⟩)
  · exact Or.inl (Or.inl (lt_of_eq_of_lt h1 g1))
  · exact Or.inl (Or.inr ⟨h1.trans g1, by rw [h2]; exact g2⟩)
  · exact Or.inr ⟨⟨h1.trans g1, h2.trans g2⟩, le_trans h3 g3⟩

theorem mem_insertCand {x a : Cand} : ∀ {l : List Cand}, x ∈ insertCand a l ↔ x = a ∨ x ∈ l := by
  intro l
  induction l with
  | nil => simp [insertCand]
  | cons b t ih =>
    simp only [insertCand]
    split
    · simp [List.mem_cons]
    · simp only [List.mem_cons, ih]
      tauto

theorem insertCand_perm (a : Cand) (l : List Cand) : List.Perm (insertCand a l) (a :: l) := by
  induction l with
  | nil => exact List.Perm.refl _
  | cons b t ih =>
    simp only [insertCand]
    split
    · exact List.Perm.refl _
    · exact (ih.cons b).trans (List.Perm.swap a b t)

theorem sortCands_perm (l : List Cand) : List.Perm (sortCands l) l := by
  induction l with
  | nil => exact List.Perm.refl _
  | cons a t ih => exact (insertCand_perm a (sortCands t)).trans (ih.cons a)

theorem insertCand_pairwise {a : Cand} {l : List Cand}
    (hl : List.Pairwise (fun x y => candLE x y = true) l) :
    List.Pairwise (fun x y => candLE x y = true) (insertCand a l) := by
  induction l with
  | nil => simp [insertCand]
  | cons b t ih =>
    rcases List.pairwise_cons.mp hl with ⟨hb, ht⟩
    simp only [insertCand]
    split
    · rename_i h
      refine List.pairwise_cons.mpr ⟨?_, hl⟩
      intro x hx
      rcases List.mem_cons.mp hx with rfl | hx
      · exact h
      · exact candLE_trans h (hb x hx)
    · rename_i h
      refine List.pairwise_cons.mpr ⟨?_, ih ht⟩
      intro x hx
      rcases mem_insertCand.mp hx with rfl | hx
      · rcases candLE_total x b with hc | hc
        · exact absurd hc h
        · exact hc
      · exact hb x hx

theorem sortCands_pairwise (l : List Cand) :
    List.Pairwise (fun x y => candLE x y = true) (sortCands l) := by
  induction l with
  | nil => simp [sortCands]
  | cons a t ih => exact insertCand_pairwise ih

/-! ## Claim C7: retry classification -/

/-- C7: `isRetryable` returns true for every error whose transport code is in
the nine-element transient set, whose SQLSTATE (the source reads
`err.code || err.sqlstate`) is class 08, is one of 57P01/57P02/57P03, or is
53300, or whose message contains "Connection terminated unexpectedly" or
"sorry, too many clients already"; and returns false for SQLSTATEs 23505,
42601, 40001, 40P01 and for a plain Error("random"). -/
theorem isRetryable_classification :
    (∀ (err : PgError) (c : List Char), err.code = some c → c ∈ transportCodes →
       isRetryable err = true) ∧
    (∀ (err : PgError) (s : List Char), jsOrStr err.code err.sqlstate = some s →
       s.length = 5 → s.take 2 = str "08" → isRetryable err = true) ∧
    (∀ (err : PgError) (s : List Char), jsOrStr err.code err.sqlstate = some s →
       (s = str "57P01" ∨ s = str "57P02" ∨ s = str "57P03" ∨ s = str "53300") →
       isRetryable err = true) ∧
    (∀ (err : PgError) (needle : List Char),
       (needle = str "Connection terminated unexpectedly" ∨
        needle = str "sorry, too many clients already") →
       containsSub err.message needle = true → isRetryable err = true) ∧
    isRetryable { code := some (str "23505") } = false ∧
    isRetryable { code := some (str "42601") } = false ∧
    isRetryable { code := some (str "40001") } = false ∧
    isRetryable { code := some (str "40P01") } = false ∧
    isRetryable { message := str "random" } = false := by
  refine ⟨?_, ?_, ?_, ?_, by decide, by decide, by decide, by decide, by decide⟩
  · intro err c hc hmem
    have hany : transportCodes.any (fun t => err.code = some t) = true :=
      List.any_eq_true.mpr ⟨c, hmem, by simp [hc]⟩
    simp [isRetryable, hany]
  · intro err s hjs hl ht
    have hm : (match jsOrStr err.code err.sqlstate with
        | some s => decide (s.length = 5) && decide (s.take 2 = str "08")
        | none => false) = true := by
      rw [hjs]
      simp [hl, ht]
    simp [isRetryable]
    simp only [hm]
    simp
  · intro err s hjs hcases
    rcases hcases with rfl | rfl | rfl | rfl <;> simp [isRetryable, hjs]
  · intro err needle hn hc
    rcases hn with rfl | rfl <;> simp [isRetryable, hc]

/-- C7 witness: concrete members of each family, discharged through
`isRetryable_classification`. -/
theorem isRetryable_classification_witness :
    isRetryable { code := some (str "ECONNRESET") } = true ∧
    isRetryable { code := some (str "08006") } = true ∧
    isRetryable { sqlstate := some (str "57P01") } = true ∧
    isRetryable { message := str "xx Connection terminated unexpectedly yy" } = true := by
  refine ⟨?_, ?_, ?_, ?_⟩
  · exact isRetryable_classification.1 _ (str "ECONNRESET") rfl (by decide)
  · exact isRetryable_classification.2.1 _ (str "08006") (by decide) (by decide) (by decide)
  · exact isRetryable_classification.2.2.1 _ (str "57P01") (by decide) (Or.inl rfl)
  · exact isRetryable_classification.2.2.2.1 _
      (str "Connection terminated unexpectedly") (Or.inl rfl) (by decide)

/-! ## Claim C8: backoff bounds (corrected) -/

/-- C8 counterexample: at `base = 100 ≤ cap = 2000`, `prev = 10 ≥ 0` and a
random draw of `1/2`, the backoff comes out as `65 < base`, so the claimed
bound `getBackoff ∈ [base, cap]` fails for arbitrary `prev ≥ 0`. -/
theorem getBackoff_below_base_cex :
    getBackoff 100 2000 10 (1/2) = 65 ∧ ¬(100 ≤ getBackoff 100 2000 10 (1/2)) ∧
    (100 : Rat) ≤ 2000 ∧ (0 : Rat) ≤ 10 ∧ (0 : Rat) ≤ 1/2 ∧ (1/2 : Rat) < 1 := by
  norm_num [getBackoff, jsOrNum]

/-- C8 (amended): for `0 ≤ base ≤ cap` and `prev` either `0` or at least
`base` (the only values the client ever stores: it resets the memory to `0`
and otherwise stores the previous result, which is then at least `base`),
every random draw in `[0,1)` yields a backoff in `[base, cap]`. -/
theorem getBackoff_bounds (base cap prev r : Rat) (hb : 0 ≤ base) (hbc : base ≤ cap)
    (hprev : prev = 0 ∨ base ≤ prev) (hr0 : 0 ≤ r) (_hr1 : r < 1) :
    base ≤ getBackoff base cap prev r ∧ getBackoff base cap prev r ≤ cap := by
  have hp : base ≤ jsOrNum prev base := by
    unfold jsOrNum
    by_cases h0 : prev = 0
    · rw [if_pos h0]
    · rw [if_neg h0]
      rcases hprev with h | h
      · exact absurd h h0
      · exact h
  constructor
  · simp only [getBackoff]
    apply le_min hbc
    have hrange : (0 : Rat) ≤ r * (jsOrNum prev base * 3 - base + 1) := by
      apply mul_nonneg hr0
      linarith
    have hfl : (0 : Int) ≤ Int.floor (r * (jsOrNum prev base * 3 - base + 1)) :=
      Int.floor_nonneg.mpr hrange
    have hflr : (0 : Rat) ≤ ((Int.floor (r * (jsOrNum prev base * 3 - base + 1)) : Int) : Rat) := by
      exact_mod_cast hfl
    linarith
  · simp only [getBackoff]
    exact min_le_left _ _

/-- C8 witness: the amended bound evaluated at `base = 100`, `cap = 2000`,
`prev = 150`, `r = 1/2`. -/
theorem getBackoff_bounds_witness :
    (100 : Rat) ≤ getBackoff 100 2000 150 (1/2) ∧ getBackoff 100 2000 150 (1/2) ≤ 2000 :=
  getBackoff_bounds 100 2000 150 (1/2) (by norm_num) (by norm_num)
    (Or.inr (by norm_num)) (by norm_num) (by norm_num)

/-! ## Helper lemma: where a killed pid comes from -/

theorem reap_kill_pid_origin (lm : LeaseManager) (strat : Strategy) (now : Int)
    (rows : List ScanRow) (p : Int)
    (hp : p ∈ ((sortCands (reapCandidates lm strat now rows)).take
        (max 1 strat.maxIdleConnectionsToKill)).map (fun c => c.pid)) :
    ∃ row ∈ rows, row.pid = p ∧ strat.minConnIdleTimeSec ≤ row.idle_time ∧
      ∃ info, parseAndVerify lm now row.application_name = some info ∧
        info.isExpired = true := by
  rcases List.mem_map.mp hp with ⟨c, hcmem, rfl⟩
  have hc1 : c ∈ sortCands (reapCandidates lm strat now rows) := List.take_subset _ _ hcmem
  have hc2 : c ∈ reapCandidates lm strat now rows := (sortCands_perm _).mem_iff.mp hc1
  rcases List.mem_filterMap.mp hc2 with ⟨row, hrow, hlc⟩
  unfold leaseCandidate at hlc
  by_cases hidle : row.idle_time < strat.minConnIdleTimeSec
  · rw [if_pos hidle] at hlc
    exact absurd hlc (by simp)
  · rw [if_neg hidle] at hlc
    rcases hpv : parseAndVerify lm now row.application_name with _ | lease
    · rw [hpv] at hlc
      exact absurd hlc (by simp)
    · rw [hpv] at hlc
      dsimp only at hlc
      by_cases hexp : lease.isExpired = true
      · rw [if_pos hexp] at hlc
        have hceq := Option.some.inj hlc
        refine ⟨row, hrow, ?_, not_lt.mp hidle, lease, hpv, hexp⟩
        rw [← hceq]
      · rw [if_neg hexp] at hlc
        exact absurd hlc (by simp)

/-! ## Claim C1: the reaper kills only verified expired leases -/

/-- C1: every pid in a `pg_terminate_backend` call of a reaper pass comes
from a scanned row with `idle_time ≥ minIdleSec` whose session label passes
`parseAndVerify` with `isExpired = true`; rows whose label fails to parse or
verify, and rows with a valid unexpired lease, are never killed. -/
theorem reap_kills_only_verified_expired (lm : LeaseManager) (strat : Strategy)
    (now : Int) (env : ReapEnv) (rows : List ScanRow)
    (hscan : env.scanRes = .ok rows) :
    ∀ ps ∈ (reap lm strat now env).killCalls, ∀ p ∈ ps,
      ∃ row ∈ rows, row.pid = p ∧ strat.minConnIdleTimeSec ≤ row.idle_time ∧
        ∃ info, parseAndVerify lm now row.application_name = some info ∧
          info.isExpired = true := by
  intro ps hps p hp
  obtain ⟨lockRes, scanRes, termRes, unlockRes⟩ := env
  dsimp only at hscan
  subst hscan
  cases lockRes with
  | error e => simp [reap] at hps
  | ok b =>
    cases b with
    | false => simp [reap] at hps
    | true =>
      unfold reap at hps
      dsimp only at hps
      cases termRes with
      | error e =>
        split at hps
        · simp only [List.mem_singleton] at hps
          subst hps
          exact reap_kill_pid_origin lm strat now rows p hp
        · simp at hps
      | ok u =>
        split at hps
        · simp only [List.mem_singleton] at hps
          subst hps
          exact reap_kill_pid_origin lm strat now rows p hp
        · simp at hps

/-- C1 witness: a two-row scan at `now = 10` under a concrete manager; pid
100 (expired lease, idle 20 ≥ 10) is in the kill call, and the theorem's
origin facts are discharged on it. -/
theorem reap_kills_only_verified_expired_witness :
    ∃ row ∈ [ScanRow.mk 100 (str "s=svc;i=i1;e=5;g=AAAAAAAAAAA") 20,
             ScanRow.mk 200 (str "s=svc;i=i1;e=50;g=AAAAAAAAAAA") 20],
      row.pid = 100 ∧ (10 : Rat) ≤ row.idle_time ∧
      ∃ info, parseAndVerify ⟨str "svc", str "i1", fun _ => str "AAAAAAAAAAA"⟩ 10
          row.application_name = some info ∧ info.isExpired = true :=
  reap_kills_only_verified_expired
    ⟨str "svc", str "i1", fun _ => str "AAAAAAAAAAA"⟩
    ⟨10, 1, false⟩ 10
    ⟨.ok true,
     .ok [ScanRow.mk 100 (str "s=svc;i=i1;e=5;g=AAAAAAAAAAA") 20,
          ScanRow.mk 200 (str "s=svc;i=i1;e=50;g=AAAAAAAAAAA") 20],
     .ok (), .ok ()⟩
    [ScanRow.mk 100 (str "s=svc;i=i1;e=5;g=AAAAAAAAAAA") 20,
     ScanRow.mk 200 (str "s=svc;i=i1;e=50;g=AAAAAAAAAAA") 20]
    rfl [100] (by decide) 100 (by decide)

/-! ## Claim C5: lock protocol and error policy of the reaper -/

/-- C5: when `pg_try_advisory_lock` returns false the reaper returns
`{locked: false, killed: 0}` immediately, issuing neither the scan nor
`pg_advisory_unlock`; when the lock was acquired, the unlock is issued on
every exit path; an exception in the scan or the terminate step yields
`{locked: false, killed: 0, error}` unless `reaperErrorMode == 'throw'`, in
which case it is re-raised. -/
theorem reap_lock_and_error_policy (lm : LeaseManager) (strat : Strategy)
    (now : Int) (env : ReapEnv) :
    (env.lockRes = .ok false →
      reap lm strat now env =
        { result := .ok { locked := false, killed := 0 }, scanIssued := false,
          killCalls := [], unlockIssued := false }) ∧
    (env.lockRes = .ok true → (reap lm strat now env).unlockIssued = true) ∧
    (∀ e, env.lockRes = .ok true → env.scanRes = .error e →
      (strat.reaperThrow = false →
        (reap lm strat now env).result =
          .ok { locked := false, killed := 0, error := some e }) ∧
      (strat.reaperThrow = true → (reap lm strat now env).result = .error e)) ∧
    (∀ e rows, env.lockRes = .ok true → env.scanRes = .ok rows →
      env.termRes = .error e → (reapCandidates lm strat now rows).length > 0 →
      (strat.reaperThrow = false →
        (reap lm strat now env).result =
          .ok { locked := false, killed := 0, error := some e }) ∧
      (strat.reaperThrow = true → (reap lm strat now env).result = .error e)) := by
  obtain ⟨lockRes, scanRes, termRes, unlockRes⟩ := env
  refine ⟨?_, ?_, ?_, ?_⟩
  · intro h
    dsimp only at h
    subst h
    rfl
  · intro h
    dsimp only at h
    subst h
    cases scanRes with
    | error e => rfl
    | ok rows =>
      unfold reap
      dsimp only
      split
      · cases termRes <;> rfl
      · rfl
  · intro e h hs
    dsimp only at h hs
    subst h
    subst hs
    constructor
    · intro hm
      simp [reap, reapCatch, hm]
    · intro hm
      simp [reap, reapCatch, hm]
  · intro e rows h hs ht hlen
    dsimp only at h hs ht
    subst h
    subst hs
    subst ht
    constructor
    · intro hm
      unfold reap
      dsimp only
      rw [if_pos hlen]
      simp [reapCatch, hm]
    · intro hm
      unfold reap
      dsimp only
      rw [if_pos hlen]
      simp [reapCatch, hm]

/-- C5 witness: a lock-busy pass on a concrete environment returns
`{locked: false, killed: 0}` with no scan and no unlock. -/
theorem reap_lock_and_error_policy_witness :
    reap ⟨[], [], fun _ => []⟩ ⟨0, 1, false⟩ 0 ⟨.ok false, .ok [], .ok (), .ok ()⟩ =
      { result := .ok { locked := false, killed := 0 }, scanIssued := false,
        killCalls := [], unlockIssued := false } :=
  (reap_lock_and_error_policy ⟨[], [], fun _ => []⟩ ⟨0, 1, false⟩ 0
    ⟨.ok false, .ok [], .ok (), .ok ()⟩).1 rfl

/-! ## Claim C6: candidate ordering and the kill cap -/

/-- C6: with the lock held, a successful scan, a nonempty candidate set and
`maxIdleConnectionsToKill ≥ 1`, the single terminate call carries exactly
the pids of the first `maxIdleConnectionsToKill` candidates of a list that
is a permutation of the candidate set sorted by
(exp ascending, idle_time descending, pid ascending), and `killed` is
reported as the length of that pid list. -/
theorem reap_orders_and_caps (lm : LeaseManager) (strat : Strategy) (now : Int)
    (env : ReapEnv) (rows : List ScanRow)
    (hlock : env.lockRes = .ok true) (hscan : env.scanRes = .ok rows)
    (hne : reapCandidates lm strat now rows ≠ [])
    (hmax : 1 ≤ strat.maxIdleConnectionsToKill) :
    (reap lm strat now env).killCalls =
      [((sortCands (reapCandidates lm strat now rows)).take
          strat.maxIdleConnectionsToKill).map (fun c => c.pid)] ∧
    List.Perm (sortCands (reapCandidates lm strat now rows))
      (reapCandidates lm strat now rows) ∧
    List.Pairwise (fun a b => candLE a b = true)
      (sortCands (reapCandidates lm strat now rows)) ∧
    (∀ u, env.termRes = .ok u →
      (reap lm strat now env).result =
        .ok ⟨true, (((sortCands (reapCandidates lm strat now rows)).take
          strat.maxIdleConnectionsToKill).map (fun c => c.pid)).length, none⟩) := by
  obtain ⟨lockRes, scanRes, termRes, unlockRes⟩ := env
  dsimp only at hlock hscan
  subst hlock
  subst hscan
  have hlen : (reapCandidates lm strat now rows).length > 0 := List.length_pos.mpr hne
  have hlim : max 1 strat.maxIdleConnectionsToKill = strat.maxIdleConnectionsToKill :=
    max_eq_right hmax
  refine ⟨?_, sortCands_perm _, sortCands_pairwise _, ?_⟩
  · unfold reap
    dsimp only
    rw [if_pos hlen, hlim]
    cases termRes <;> rfl
  · intro u ht
    dsimp only at ht
    subst ht
    unfold reap
    dsimp only
    rw [if_pos hlen, hlim]

/-- C6 witness: at `now = 10` with two scanned rows, one expired candidate
and `maxIdleConnectionsToKill = 1`, the kill call is exactly `[100]` and
`killed = 1`. -/
theorem reap_orders_and_caps_witness :
    (reap ⟨str "svc", str "i1", fun _ => str "AAAAAAAAAAA"⟩ ⟨10, 1, false⟩ 10
      ⟨.ok true,
       .ok [ScanRow.mk 100 (str "s=svc;i=i1;e=5;g=AAAAAAAAAAA") 20,
            ScanRow.mk 200 (str "s=svc;i=i1;e=50;g=AAAAAAAAAAA") 20],
       .ok (), .ok ()⟩).killCalls =
      [((sortCands (reapCandidates ⟨str "svc", str "i1", fun _ => str "AAAAAAAAAAA"⟩
          ⟨10, 1, false⟩ 10
          [ScanRow.mk 100 (str "s=svc;i=i1;e=5;g=AAAAAAAAAAA") 20,
           ScanRow.mk 200 (str "s=svc;i=i1;e=50;g=AAAAAAAAAAA") 20])).take 1).map
        (fun c => c.pid)] :=
  (reap_orders_and_caps ⟨str "svc", str "i1", fun _ => str "AAAAAAAAAAA"⟩ ⟨10, 1, false⟩ 10
    ⟨.ok true,
     .ok [ScanRow.mk 100 (str "s=svc;i=i1;e=5;g=AAAAAAAAAAA") 20,
          ScanRow.mk 200 (str "s=svc;i=i1;e=50;g=AAAAAAAAAAA") 20],
     .ok (), .ok ()⟩
    [ScanRow.mk 100 (str "s=svc;i=i1;e=5;g=AAAAAAAAAAA") 20,
     ScanRow.mk 200 (str "s=svc;i=i1;e=50;g=AAAAAAAAAAA") 20]
    rfl rfl (by decide) (by decide)).1

/-! ## Claim C3: the generation guard of `_connect` -/

/-- C3: if the client's generation has changed by the time the connect
handshake completes (in particular because a fatal session event was handled
concurrently, which always bumps the generation), the freshly-connected
session is ended and not installed as the underlying session, and the client
state is left untouched by the guard. -/
theorem connect_generation_guard :
    (∀ (gen sess : Nat) (s : ClientState), s.generation ≠ gen →
      connectAfterHandshake gen sess s = ⟨s, false, [sess]⟩) ∧
    (∀ (gen sess csess : Nat) (e : Option PgError) (src : List Char) (s : ClientState),
      s.generation = gen → s.client ≠ some sess →
      (connectAfterHandshake gen sess (markDeadAndDispose csess e src s).state).installed
          = false ∧
      (connectAfterHandshake gen sess (markDeadAndDispose csess e src s).state).state.client
          ≠ some sess ∧
      (connectAfterHandshake gen sess (markDeadAndDispose csess e src s).state).endedSessions
          = [sess]) := by
  constructor
  · intro gen sess s h
    unfold connectAfterHandshake
    rw [if_pos h]
  · intro gen sess csess e src s hgen hcl
    have hg2 : (markDeadAndDispose csess e src s).state.generation ≠ gen := by
      dsimp only [markDeadAndDispose]
      omega
    have hcl2 : (markDeadAndDispose csess e src s).state.client ≠ some sess := by
      dsimp only [markDeadAndDispose]
      split
      · simp
      · exact hcl
    refine ⟨?_, ?_, ?_⟩
    · rw [connectAfterHandshake, if_pos hg2]
    · rw [connectAfterHandshake, if_pos hg2]
      exact hcl2
    · rw [connectAfterHandshake, if_pos hg2]

/-- C3 witness: a fatal event during the handshake at generation 1 keeps the
fresh session (id 7) uninstalled. -/
theorem connect_generation_guard_witness :
    (connectAfterHandshake 1 7 (markDeadAndDispose 3 none (str "error")
      ⟨some 3, false, 1, 0⟩).state).installed = false :=
  (connect_generation_guard.2 1 7 3 none (str "error") ⟨some 3, false, 1, 0⟩
    rfl (by decide)).1

/-! ## Claim C9: the fatal-event handler (corrected) -/

/-- C9 counterexample: an `end` event passes no error object
(`client.on('end', () => this._markDeadAndDispose(client, null, 'end'))`),
and the handler's hook emission is guarded by `if (err)`, so no
`onClientDead` hook is emitted — against the claim that every fatal event
(error or end) emits it. -/
theorem markDead_end_no_hook_cex :
    (markDeadAndDispose 5 none (str "end") ⟨some 5, false, 0, 0⟩).hooks = [] := by decide

/-- C9 (amended): for every fatal event the handler is a total function that
sets `dead`, increments the generation, detaches the session exactly when it
is still current, best-effort closes the session, and emits `onClientDead`
with the eight extracted meta fields exactly when an error object is present
(`error` events); `end` events carry no error and emit no hook. -/
theorem markDeadAndDispose_spec (sess : Nat) (err : Option PgError) (source : List Char)
    (s : ClientState) :
    (markDeadAndDispose sess err source s).state.isDead = true ∧
    (markDeadAndDispose sess err source s).state.generation = s.generation + 1 ∧
    s.generation < (markDeadAndDispose sess err source s).state.generation ∧
    (s.client = some sess → (markDeadAndDispose sess err source s).state.client = none) ∧
    (s.client ≠ some sess → (markDeadAndDispose sess err source s).state.client = s.client) ∧
    (markDeadAndDispose sess err source s).state.leaseExp = s.leaseExp ∧
    (markDeadAndDispose sess err source s).hooks =
      (match err with
       | some e => [Hook.onClientDead source e
           ⟨e.code, e.sqlstate, e.errno, e.syscall, e.address, e.port, e.severity, e.routine⟩]
       | none => []) ∧
    (markDeadAndDispose sess err source s).closedSessions = [sess] := by
  refine ⟨rfl, rfl, ?_, ?_, ?_, rfl, ?_, rfl⟩
  · dsimp only [markDeadAndDispose]
    omega
  · intro h
    dsimp only [markDeadAndDispose]
    rw [if_pos h]
  · intro h
    dsimp only [markDeadAndDispose]
    rw [if_neg h]
  · cases err with
    | none => rfl
    | some e => rfl

/-- C9 witness: an `error` event with a concrete error object on the current
session detaches it, discharged through `markDeadAndDispose_spec`. -/
theorem markDeadAndDispose_spec_witness :
    (markDeadAndDispose 2 (some { message := str "boom", code := some (str "ECONNRESET") })
      (str "error") ⟨some 2, false, 4, 9⟩).state.client = none :=
  (markDeadAndDispose_spec 2 (some { message := str "boom", code := some (str "ECONNRESET") })
    (str "error") ⟨some 2, false, 4, 9⟩).2.2.2.1 rfl

/-! ## Claim C4: the heartbeat update guard -/

/-- C4: a heartbeat attempt updates the local `leaseExp` (to the freshly
minted expiry `now + ttl`) and emits `onHeartbeat` only when the
`SET_SESSION_LABEL` race resolved as a successful query result and both the
generation and the session captured at the start of the attempt still equal
the client's current ones at completion. -/
theorem heartbeat_update_guard (gen sess : Nat) (hasLease : Bool) (now ttl : Int)
    (sEntry sDone : ClientState) (qres : Except (List Char) Bool) (mode : HBMode) :
    (Hook.onHeartbeat gen ∈
        (performHeartbeat gen sess hasLease now ttl sEntry sDone qres mode).hooks →
      qres = .ok true ∧ sDone.generation = gen ∧ sDone.client = some sess) ∧
    (sEntry.leaseExp ≠ now + ttl → sDone.leaseExp ≠ now + ttl →
      (performHeartbeat gen sess hasLease now ttl sEntry sDone qres mode).state.leaseExp
          = now + ttl →
      qres = .ok true ∧ sDone.generation = gen ∧ sDone.client = some sess) := by
  constructor
  · intro hmem
    unfold performHeartbeat at hmem
    by_cases h1 : hasLease = true
    · rw [if_neg (not_not_intro h1)] at hmem
      by_cases h2 : sEntry.client = some sess
      · rw [if_neg (not_not_intro h2)] at hmem
        by_cases h3 : sEntry.generation = gen
        · rw [if_neg (not_not_intro h3)] at hmem
          dsimp only at hmem
          cases qres with
          | error e =>
            cases mode <;> simp [hbCatch, disposeClient] at hmem
          | ok b =>
            cases b with
            | false =>
              cases mode <;> simp [hbCatch, disposeClient] at hmem
            | true =>
              by_cases hcond : sDone.generation = gen ∧ sDone.client = some sess
              · exact ⟨rfl, hcond.1, hcond.2⟩
              · rw [if_neg hcond] at hmem
                simp at hmem
        · rw [if_pos h3] at hmem
          simp at hmem
      · rw [if_pos h2] at hmem
        simp at hmem
    · rw [if_pos h1] at hmem
      simp at hmem
  · intro hne1 hne2 hstate
    unfold performHeartbeat at hstate
    by_cases h1 : hasLease = true
    · rw [if_neg (not_not_intro h1)] at hstate
      by_cases h2 : sEntry.client = some sess
      · rw [if_neg (not_not_intro h2)] at hstate
        by_cases h3 : sEntry.generation = gen
        · rw [if_neg (not_not_intro h3)] at hstate
          dsimp only at hstate
          cases qres with
          | error e =>
            cases mode <;> dsimp only [hbCatch, disposeClient] at hstate <;>
              exact absurd hstate hne2
          | ok b =>
            cases b with
            | false =>
              cases mode <;> dsimp only [hbCatch, disposeClient] at hstate <;>
                exact absurd hstate hne2
            | true =>
              by_cases hcond : sDone.generation = gen ∧ sDone.client = some sess
              · exact ⟨rfl, hcond.1, hcond.2⟩
              · rw [if_neg hcond] at hstate
                dsimp only at hstate
                exact absurd hstate hne2
        · rw [if_pos h3] at hstate
          dsimp only at hstate
          exact absurd hstate hne1
      · rw [if_pos h2] at hstate
        dsimp only at hstate
        exact absurd hstate hne1
    · rw [if_pos h1] at hstate
      dsimp only at hstate
      exact absurd hstate hne1

/-- C4 witness: a successful heartbeat whose captured generation 3 and
session 1 are still current emits `onHeartbeat`, discharged through
`heartbeat_update_guard`. -/
theorem heartbeat_update_guard_witness :
    (Except.ok true : Except (List Char) Bool) = .ok true ∧
    (⟨some 1, false, 3, 0⟩ : ClientState).generation = 3 ∧
    (⟨some 1, false, 3, 0⟩ : ClientState).client = some 1 :=
  (heartbeat_update_guard 3 1 true 10 5 ⟨some 1, false, 3, 0⟩ ⟨some 1, false, 3, 0⟩
    (.ok true) .reconnect).1 (by decide)

/-! ## Claim C10: the client stays usable after `clean()` / `end()` -/

/-- C10: `clean()` (and its alias `end()`) only disposes the session — there
is no closed flag.  A subsequent `query()` finds no underlying session,
routes to `connect()`, installs a fresh session under a fresh generation and
a fresh lease, and executes the query instead of raising. -/
theorem client_usable_after_clean (s : ClientState) (now ttl : Int) (sess : Nat)
    (hb : ClientState → ClientState) (r : Except (List Char) Unit) :
    (cleanClient s).1.client = none ∧
    queryNeedsConnect (cleanClient s).1 = true ∧
    queryAttempt hb true now ttl sess r (cleanClient s).1 =
      (⟨some sess, false, s.generation + 2, now + ttl⟩, r) := by
  refine ⟨rfl, rfl, ?_⟩
  simp only [queryAttempt, queryNeedsConnect, cleanClient, disposeClient,
    connectSuccessNoInterference, connectBegin, connectPre, connectAfterHandshake]
  simp

/-! ## Claim C2: label-length and roundtrip invariant (corrected) -/

/-- C2 counterexample: a 28-byte printable-ASCII instance id (well inside
the claimed 200-byte domain) with a 13-digit expiry timestamp makes
`generateAppName` throw its length-invariant error instead of producing a
label of at most 63 bytes: `_normalizeServiceName` bounds only the service
name, never the instance id.  The stand-in signature and hash functions have
the exact output shape of the real primitives (11 base64url characters,
8 hex characters). -/
theorem mint_long_instance_cex :
    (mkLeaseManager (fun _ => str "AAAAAAAAAAA") (fun _ => str "00000000")
        (str "svc") (List.replicate 28 'a') (str "secret-1234567890")).map
      (fun lm => generateAppName lm 1000000000000) =
      .ok (.error (str "BUG: application_name too long")) ∧
    (List.replicate 28 'a').length ≤ 200 ∧
    (∀ c ∈ List.replicate 28 'a', isPrintableAscii c = true) ∧
    SignOk (fun _ => str "AAAAAAAAAAA") ∧
    HashOk (fun _ => str "00000000") :=
  ⟨by decide, by decide, by decide,
   fun t => show (str "AAAAAAAAAAA").length = 11 ∧
       ∀ c ∈ str "AAAAAAAAAAA", isB64UrlChar c = true by decide,
   fun t => show (str "00000000").length = 8 ∧
       ∀ c ∈ str "00000000", isHexChar c = true by decide⟩

/-- C2 (amended): for every service name over printable ASCII up to 200
bytes, every instance id of at most 27 bytes (the largest size whose fixed
label overhead still fits; the client itself always generates 8-byte ids),
every secret of at least 16 bytes, and every expiry timestamp of at most 13
decimal digits, the constructed manager mints a label of length ≤ 63 and
`parseAndVerify` accepts it with `inst` equal to the manager's sanitized
instance id.  For instance ids of 28 bytes or more `generateAppName` instead
fails loudly (see the counterexample). -/
theorem mint_roundtrip_bounded (hmac sha : List Char → List Char)
    (hsig : SignOk hmac) (hsha : HashOk sha)
    (svc inst secret : List Char) (expTs : Nat) (now : Int)
    (_hsvc_ascii : ∀ c ∈ svc, isPrintableAscii c = true) (_hsvc_len : svc.length ≤ 200)
    (_hinst_ascii : ∀ c ∈ inst, isPrintableAscii c = true) (hinst_len : inst.length ≤ 27)
    (hsecret : 16 ≤ secret.length) (hexp : expTs < 10 ^ 13) :
    ∃ lm label, mkLeaseManager hmac sha svc inst secret = .ok lm ∧
      generateAppName lm expTs = .ok label ∧ label.length ≤ 63 ∧
      ∃ info, parseAndVerify lm now label = some info ∧ info.inst = lm.instanceId := by
  set instS := sanitizeToken (if inst = [] then str "inst" else inst) with hinstS
  have hinstS_ne : instS ≠ [] := by
    rw [hinstS]
    apply sanitizeToken_ne_nil
    split
    · decide
    · assumption
  have hinstS_san : sanitizeToken instS = instS := by
    rw [hinstS]
    exact sanitizeToken_idem _
  have hinstS_len : instS.length ≤ 27 := by
    rw [hinstS, sanitizeToken_length]
    split
    · decide
    · exact hinst_len
  obtain ⟨hsvcN_len, hsvcN_ne, hsvcN_ch⟩ :=
    normalizeServiceName_spec sha hsha (if svc = [] then str "sls_pg" else svc)
      instS hinstS_ne hinstS_san
  set svcN := normalizeServiceName sha (if svc = [] then str "sls_pg" else svc) instS
    with hsvcN
  have hmk : mkLeaseManager hmac sha svc inst secret = .ok ⟨svcN, instS, hmac⟩ := by
    simp only [mkLeaseManager]
    rw [if_neg (by intro h; rw [h] at hsecret; simp at hsecret), if_neg (by omega)]
  have hds_ne : natDigits expTs ≠ [] := natDigits_ne_nil
  have hds_dig : ∀ c ∈ natDigits expTs, isDigitChar c = true := natDigits_digits
  have hds_len : (natDigits expTs).length ≤ 13 := natDigits_length_le (by norm_num) hexp
  have hsgl : (hmac (str "s=" ++ svcN ++ str ";i=" ++ instS ++ str ";e=" ++
      natDigits expTs)).length = 11 := (hsig _).1
  have hlab : (str "s=" ++ svcN ++ str ";i=" ++ instS ++ str ";e=" ++ natDigits expTs ++
      str ";g=" ++ hmac (str "s=" ++ svcN ++ str ";i=" ++ instS ++ str ";e=" ++
        natDigits expTs)).length ≤ 63 := by
    have hLa : (str "s=").length = 2 := rfl
    have hLb : (str ";i=").length = 3 := rfl
    have hLc : (str ";e=").length = 3 := rfl
    have hLd : (str ";g=").length = 3 := rfl
    simp only [List.length_append, hLa, hLb, hLc, hLd, hsgl]
    omega
  have hmint : generateAppName ⟨svcN, instS, hmac⟩ expTs =
      .ok (str "s=" ++ svcN ++ str ";i=" ++ instS ++ str ";e=" ++ natDigits expTs ++
        str ";g=" ++ hmac (str "s=" ++ svcN ++ str ";i=" ++ instS ++ str ";e=" ++
          natDigits expTs)) := by
    simp only [generateAppName]
    rw [if_neg (not_lt.mpr hlab)]
  have hsv_semi : ∀ c ∈ svcN, c ≠ ';' := fun c hc => tokenChar_ne_semi (hsvcN_ch c hc)
  have hin_semi : ∀ c ∈ instS, c ≠ ';' := by
    intro c hc
    rw [hinstS] at hc
    exact tokenChar_ne_semi (sanitizeToken_chars _ c hc)
  have hsg_ne : hmac (str "s=" ++ svcN ++ str ";i=" ++ instS ++ str ";e=" ++
      natDigits expTs) ≠ [] := by
    intro h
    rw [h] at hsgl
    simp at hsgl
  have hsg_semi : ∀ c ∈ hmac (str "s=" ++ svcN ++ str ";i=" ++ instS ++ str ";e=" ++
      natDigits expTs), c ≠ ';' :=
    fun c hc => b64UrlChar_ne_semi ((hsig _).2 c hc)
  obtain ⟨v, hpv⟩ := parseAndVerify_mintShape ⟨svcN, instS, hmac⟩ now (natDigits expTs)
    hsvcN_ne hsv_semi hinstS_ne hin_semi hds_ne hds_dig hsg_ne hsg_semi
  exact ⟨⟨svcN, instS, hmac⟩, _, hmk, hmint, hlab, ⟨svcN, instS, v, decide (now > v)⟩, hpv, rfl⟩

/-- C2 witness: the amended roundtrip at a concrete manager
(service "test-svc", instance "inst-1", a 17-byte secret, expiry 0,
verification time 5), with stand-in primitives of the right output shape. -/
theorem mint_roundtrip_bounded_witness :
    ∃ lm label, mkLeaseManager (fun _ => str "AAAAAAAAAAA") (fun _ => str "00000000")
        (str "test-svc") (str "inst-1") (str "secret-1234567890") = .ok lm ∧
      generateAppName lm 0 = .ok label ∧ label.length ≤ 63 ∧
      ∃ info, parseAndVerify lm 5 label = some info ∧ info.inst = lm.instanceId :=
  mint_roundtrip_bounded (fun _ => str "AAAAAAAAAAA") (fun _ => str "00000000")
    (fun t => show (str "AAAAAAAAAAA").length = 11 ∧
       ∀ c ∈ str "AAAAAAAAAAA", isB64UrlChar c = true by decide)
    (fun t => show (str "00000000").length = 8 ∧
       ∀ c ∈ str "00000000", isHexChar c = true by decide)
    (str "test-svc") (str "inst-1") (str "secret-1234567890") 0 5
    (by decide) (by decide) (by decide) (by decide) (by decide) (by norm_num)
